import Mathlib

/-!
Verification of the behaviour-tree tick engine specified for
`py_trees_ros/tutorials/five.py`.

The repository source (`src/py_trees_ros/tutorials/five.py`) contains only the
tree construction (`create_root`) and the process driver (`main`); the tick
engine itself (composites, decorators, blackboard conditions, the action
client) lives in the `py_trees` / `py_trees_ros` libraries, which are not part
of the source tree.  Those parts are therefore modelled from the spec
(sections 3, 4.1-4.8), and the concrete tree and driver are embedded from the
source file.
-/

/-- Modelled from the spec (section 3, "Status"): the finite result type shared
by every node.  `invalid` means "not yet ticked in this activation". -/
inductive Status where
  | invalid
  | running
  | success
  | failure
deriving DecidableEq, Repr

/-- Modelled from the spec (sections 3 and 7): the statuses an `update()` may
produce.  The spec's invariant states that a node's status after `tick()` is
always one of {RUNNING, SUCCESS, FAILURE} and that no `update()` produces
INVALID ("every node's `update()` must terminate with a Status, never an
unhandled fault"), so leaf step functions are typed with this restriction. -/
inductive TickStatus where
  | running
  | success
  | failure
deriving DecidableEq, Repr

/-- Injection of an `update()` result into the full status type. -/
def TickStatus.toStatus : TickStatus → Status
  | .running => .running
  | .success => .success
  | .failure => .failure

/-- Modelled from the spec (section 3, "Blackboard"): values are arbitrary
typed data; a small closed universe of value types suffices for this tree. -/
inductive Val where
  | bool (b : Bool)
  | num (n : Int)
  | str (s : String)
deriving DecidableEq, Repr

/-- Modelled from the spec: the blackboard is a process-wide key/value store
with string keys. -/
def Blackboard := List (String × Val)

/-- Key lookup in the blackboard. -/
def Blackboard.lookup? : Blackboard → String → Option Val
  | [], _ => none
  | (k, v) :: rest, key => if k = key then some v else Blackboard.lookup? rest key

/-- Modelled from the spec (section 3, "Goal" and 6): the goal states observed
by the action-client behaviour, plus the unreachable-server outcome. -/
inductive GoalState where
  | pending
  | active
  | succeeded
  | aborted
  | unreachable
deriving DecidableEq, Repr

/-- The external inputs one tick observes: the blackboard snapshot, the state
of the outstanding rotate goal, and whether the pause timer has elapsed. -/
structure Env where
  bb : Blackboard
  rotateGoal : GoalState
  pauseDone : Bool

/-- Modelled from the spec (sections 3 and 4): a behaviour-tree node.  Leaves
carry their `update()` as a pure step function of the environment; composites
carry their ordered children; every node records its current status.  The
`sequence` node also records the current-child index the spec requires
("implementations must track `current child index` across ticks"); `parallel`
carries its success policy (`true` = success on one).  Decorators are the
explicit remapping variants of spec section 4.5. -/
inductive BT where
  | leaf (name : String) (status : Status) (step : Env → TickStatus)
  | selector (name : String) (status : Status) (children : List BT)
  | sequence (name : String) (status : Status) (currentIndex : Nat) (children : List BT)
  | parallel (name : String) (status : Status) (successOnOne : Bool) (children : List BT)
  | successIsFailure (name : String) (status : Status) (child : BT)
  | successIsRunning (name : String) (status : Status) (child : BT)

/-- The name of a node (ignoring its subtree). -/
def rootName : BT → String
  | .leaf n _ _ => n
  | .selector n _ _ => n
  | .sequence n _ _ _ => n
  | .parallel n _ _ _ => n
  | .successIsFailure n _ _ => n
  | .successIsRunning n _ _ => n

/-- The currently recorded status of a node. -/
def rootStatus : BT → Status
  | .leaf _ st _ => st
  | .selector _ st _ => st
  | .sequence _ st _ _ => st
  | .parallel _ st _ _ => st
  | .successIsFailure _ st _ => st
  | .successIsRunning _ st _ => st

mutual
/-- Modelled from the spec (sections 4.1 and 4.3): `stop(INVALID)` on a
subtree.  Every node's status becomes INVALID and every node that was RUNNING
receives `terminate`; the returned list records, in preorder, the names of the
nodes so terminated.  A sequence's current-child index is reset. -/
def invalidate : BT → BT × List String
  | .leaf n st f =>
      (.leaf n .invalid f, if st = .running then [n] else [])
  | .selector n st cs =>
      let r := invalidateList cs
      (.selector n .invalid r.1, (if st = .running then [n] else []) ++ r.2)
  | .sequence n st _ cs =>
      let r := invalidateList cs
      (.sequence n .invalid 0 r.1, (if st = .running then [n] else []) ++ r.2)
  | .parallel n st one cs =>
      let r := invalidateList cs
      (.parallel n .invalid one r.1, (if st = .running then [n] else []) ++ r.2)
  | .successIsFailure n st c =>
      let r := invalidate c
      (.successIsFailure n .invalid r.1, (if st = .running then [n] else []) ++ r.2)
  | .successIsRunning n st c =>
      let r := invalidate c
      (.successIsRunning n .invalid r.1, (if st = .running then [n] else []) ++ r.2)

/-- `invalidate` mapped over a list of sibling subtrees. -/
def invalidateList : List BT → List BT × List String
  | [] => ([], [])
  | c :: rest =>
      let rc := invalidate c
      let rr := invalidateList rest
      (rc.1 :: rr.1, rc.2 ++ rr.2)
end

/-- Modelled from the spec (section 4.4): when a parallel reaches a terminal
status, any child still RUNNING is invalidated (receiving `terminate`); the
other children are left as they are. -/
def invalidateRunningList : List BT → List BT × List String
  | [] => ([], [])
  | c :: rest =>
      let rr := invalidateRunningList rest
      if rootStatus c = .running then
        let rc := invalidate c
        (rc.1 :: rr.1, rc.2 ++ rr.2)
      else
        (c :: rr.1, rr.2)

/-- Modelled from the spec (section 4.4): the "success on one" aggregation.
SUCCESS as soon as at least one child has returned SUCCESS this tick, FAILURE
if all children have returned FAILURE, else RUNNING. -/
def parallelStatusOne (ss : List Status) : Status :=
  if ss.any (fun s => s = .success) then .success
  else if ss.all (fun s => s = .failure) then .failure
  else .running

/-- Modelled from the spec (section 4.4, "configurable success policy"): the
library default used by the root node, success when all children have
succeeded, failure as soon as any child has failed, else running. -/
def parallelStatusAll (ss : List Status) : Status :=
  if ss.any (fun s => s = .failure) then .failure
  else if ss.all (fun s => s = .success) then .success
  else .running

/-- The result of ticking one node: the updated subtree, the status returned,
and the names of previously-RUNNING nodes that received `terminate` during the
tick, in order. -/
structure TickResult where
  tree : BT
  status : Status
  terminated : List String

/-- The result of a selector's scan over its children. -/
structure SelResult where
  trees : List BT
  status : Status
  terminated : List String

/-- The result of a sequence's pass over its children: also the stored
current-child index for the next tick. -/
structure SeqResult where
  trees : List BT
  status : Status
  terminated : List String
  nextIndex : Nat

/-- The result of a parallel ticking all of its children. -/
structure ParResult where
  trees : List BT
  statuses : List Status
  terminated : List String
mutual
/-- Modelled from the spec (sections 4.1-4.5): one tick of a node.  Leaves run
their `update()`.  A selector re-scans from its first child; the first child to
return a non-FAILURE status stops the scan and the remaining children are
invalidated (4.3).  A sequence resumes at its stored current-child index; a
failing child aborts the pass, invalidating the children after it (4.2).  A
parallel ticks all children, aggregates under its policy, and on a terminal
status invalidates any child still RUNNING (4.4).  A decorator ticks its
single child unconditionally and remaps the returned status (4.5). -/
def tick (env : Env) : BT → TickResult
  | .leaf n _ f =>
      let s := (f env).toStatus
      ⟨.leaf n s f, s, []⟩
  | .selector n _ cs =>
      let r := selGo env cs
      ⟨.selector n r.status r.trees, r.status, r.terminated⟩
  | .sequence n _ idx cs =>
      let r := seqGo env idx 0 cs
      ⟨.sequence n r.status r.nextIndex r.trees, r.status, r.terminated⟩
  | .parallel n _ one cs =>
      let r := parGo env cs
      let s := if one then parallelStatusOne r.statuses else parallelStatusAll r.statuses
      if s = .running then
        ⟨.parallel n s one r.trees, s, r.terminated⟩
      else
        let ri := invalidateRunningList r.trees
        ⟨.parallel n s one ri.1, s, r.terminated ++ ri.2⟩
  | .successIsFailure n _ c =>
      let r := tick env c
      let s := if r.status = .success then .failure else r.status
      ⟨.successIsFailure n s r.tree, s, r.terminated⟩
  | .successIsRunning n _ c =>
      let r := tick env c
      let s := if r.status = .success then .running else r.status
      ⟨.successIsRunning n s r.tree, s, r.terminated⟩
termination_by t => sizeOf t

/-- Modelled from the spec (section 4.3): the selector scan.  Children are
ticked in order; the first non-FAILURE status stops the scan and the remaining
children are invalidated so any previously-RUNNING one receives `terminate`;
if every child fails the scan fails. -/
def selGo (env : Env) : List BT → SelResult
  | [] => ⟨[], .failure, []⟩
  | c :: rest =>
      let rc := tick env c
      if rc.status = .failure then
        let rr := selGo env rest
        ⟨rc.tree :: rr.trees, rr.status, rc.terminated ++ rr.terminated⟩
      else
        let ri := invalidateList rest
        ⟨rc.tree :: ri.1, rc.status, rc.terminated ++ ri.2⟩
termination_by l => sizeOf l

/-- Modelled from the spec (section 4.2): the sequence pass.  The first `skip`
children (those before the stored current-child index) are left untouched, not
ticked; `pos` is the absolute position of the list head.  From the index on,
a failing child aborts the pass and the children after it are invalidated; a
RUNNING child pauses the pass, keeping its position as the stored index; if
all remaining children succeed the sequence succeeds and the index resets. -/
def seqGo (env : Env) (skip : Nat) (pos : Nat) : List BT → SeqResult
  | [] => ⟨[], .success, [], 0⟩
  | c :: rest =>
      match skip with
      | skip' + 1 =>
          let rr := seqGo env skip' (pos + 1) rest
          ⟨c :: rr.trees, rr.status, rr.terminated, rr.nextIndex⟩
      | 0 =>
          let rc := tick env c
          match rc.status with
          | .failure =>
              let ri := invalidateList rest
              ⟨rc.tree :: ri.1, .failure, rc.terminated ++ ri.2, 0⟩
          | .running =>
              ⟨rc.tree :: rest, .running, rc.terminated, pos⟩
          | _ =>
              let rr := seqGo env 0 (pos + 1) rest
              ⟨rc.tree :: rr.trees, rr.status, rc.terminated ++ rr.terminated, rr.nextIndex⟩
termination_by l => sizeOf l

/-- Modelled from the spec (section 4.4): a parallel ticks all of its children
every tick, with no short-circuit, collecting their statuses in order. -/
def parGo (env : Env) : List BT → ParResult
  | [] => ⟨[], [], []⟩
  | c :: rest =>
      let rc := tick env c
      let rr := parGo env rest
      ⟨rc.tree :: rr.trees, rc.status :: rr.statuses, rc.terminated ++ rr.terminated⟩
termination_by l => sizeOf l
end

/-- The status a tick of `t` returns. -/
def tickStatus (env : Env) (t : BT) : Status :=
  (tick env t).status

/-- The updated subtree a tick of `t` produces. -/
def tickTree (env : Env) (t : BT) : BT :=
  (tick env t).tree

/-- The names terminated during a tick of `t`. -/
def tickLog (env : Env) (t : BT) : List String :=
  (tick env t).terminated

/-- The selector policy in the spec's own words (section 4.3): "the first
child to return SUCCESS or RUNNING stops the scan; the Selector adopts that
status.  If every child returns FAILURE, the Selector returns FAILURE." -/
def specSelector : List Status → Status
  | [] => .failure
  | s :: rest => if s = .success ∨ s = .running then s else specSelector rest

/-- The sequence policy in the spec's own words (section 4.2): a failing child
fails the pass, a RUNNING child pauses it, and if all remaining children
succeed the pass succeeds. -/
def specSequence : List Status → Status
  | [] => .success
  | s :: rest =>
      if s = .failure then .failure
      else if s = .running then .running
      else specSequence rest

/-- Modelled from the spec (section 4.7): the action client's `update()` maps
the polled external goal state to a node status: ACTIVE/PENDING become
RUNNING, SUCCEEDED becomes SUCCESS, ABORTED or an unreachable server become
FAILURE. -/
def goalToStatus : GoalState → TickStatus
  | .pending => .running
  | .active => .running
  | .succeeded => .success
  | .aborted => .failure
  | .unreachable => .failure

/-- Modelled from the spec (section 4.6): `CheckBlackboardVariable.update()`.
An absent key is a "missing key" outcome mapped to FAILURE; otherwise SUCCESS
exactly when the stored value equals the expected value, else FAILURE. -/
def checkBlackboardVariable (key : String) (expected : Val) (bb : Blackboard) : TickStatus :=
  match bb.lookup? key with
  | none => .failure
  | some v => if v = expected then .success else .failure

/-- Modelled from the spec (section 4.6): one `update()` of the condition
behaviour, returning the status together with the blackboard it leaves behind
(reading is non-consuming, so the store passes through unchanged). -/
def checkUpdate (key : String) (expected : Val) (bb : Blackboard) : TickStatus × Blackboard :=
  (checkBlackboardVariable key expected bb, bb)

/-- Modelled from the spec (section 4.7): the state of one action-client
behaviour instance, tracking its recorded node status and how many goals it
has sent to the external server. -/
structure ActionClient where
  status : Status
  goalsSent : Nat
deriving DecidableEq, Repr

/-- Modelled from the spec (section 4.7): `initialise()` sends a new goal with
the preconfigured payload. -/
def acInitialise (ac : ActionClient) : ActionClient :=
  { ac with goalsSent := ac.goalsSent + 1 }

/-- Modelled from the spec (section 4.7): the pure `update()` step, polling
the external goal state; it only computes a status, it sends nothing. -/
def acUpdateStep (gs : GoalState) (ac : ActionClient) : ActionClient :=
  { ac with status := (goalToStatus gs).toStatus }

/-- Modelled from the spec (section 4.1): the leaf tick protocol for the
action client — `initialise()` on a fresh activation (the status is not
RUNNING), then `update()`. -/
def acTick (gs : GoalState) (ac : ActionClient) : ActionClient :=
  let ac1 := if ac.status = .running then ac else acInitialise ac
  acUpdateStep gs ac1

/-- From `five.py` line 125: `Scan2BB`, an event-to-blackboard subscriber.
The transport that performs the blackboard write is out of scope for the spec
(section 1); as a tree node it succeeds each tick. -/
def scan2bb : BT :=
  .leaf "Scan2BB" .invalid (fun _ => .success)

/-- From `five.py` line 130: `Battery2BB`, a battery-to-blackboard subscriber;
the write transport is out of scope, as a tree node it succeeds each tick. -/
def battery2bb : BT :=
  .leaf "Battery2BB" .invalid (fun _ => .success)

/-- From `five.py` line 124: the `Topics2BB` sequence. -/
def topics2bb : BT :=
  .sequence "Topics2BB" .invalid 0 [scan2bb, battery2bb]

/-- From `five.py` line 136: `Battery Ok?`, a `CheckBlackboardVariable` on key
`battery_low_warning` with expected value `False`. -/
def isBatteryOk : BT :=
  .leaf "Battery Ok?" .invalid
    (fun env => checkBlackboardVariable "battery_low_warning" (Val.bool false) env.bb)

/-- From `five.py` lines 141 and 164 and 166: a `FlashLedStrip` behaviour; it
keeps publishing its colour and stays RUNNING. -/
def flashLed (name : String) : BT :=
  .leaf name .invalid (fun _ => .running)

/-- From `five.py` line 135: the `Battery Emergency` selector wrapped in the
success-is-failure decorator. -/
def batteryCheck : BT :=
  .successIsFailure "Battery Emergency" .invalid
    (.selector "Battery Emergency" .invalid [isBatteryOk, flashLed "Flash Red"])

/-- From `five.py` line 146: `Scan?`, a `CheckBlackboardVariable` on key
`event_scan_button` with expected value `True`. -/
def isScanRequested : BT :=
  .leaf "Scan?" .invalid
    (fun env => checkBlackboardVariable "event_scan_button" (Val.bool true) env.bb)

/-- From `five.py` line 152: the second scan check wrapped in the
success-is-running decorator. -/
def isScanRequestedTwo : BT :=
  .successIsRunning "Scan?" .invalid
    (.leaf "Scan?" .invalid
      (fun env => checkBlackboardVariable "event_scan_button" (Val.bool true) env.bb))

/-- From `five.py` line 158: the `Rotate` action client leaf; its `update()`
polls the rotate goal state. -/
def scanRotate : BT :=
  .leaf "Rotate" .invalid (fun env => goalToStatus env.rotateGoal)

/-- From `five.py` line 157: the `Scanning` parallel with policy
SUCCESS_ON_ONE. -/
def scanning : BT :=
  .parallel "Scanning" .invalid true [scanRotate, flashLed "Flash Blue"]

/-- From `five.py` line 151: the `Preempt?` selector. -/
def scanPreempt : BT :=
  .selector "Preempt?" .invalid [isScanRequestedTwo, scanning]

/-- From `five.py` line 167: the `Pause` timer, RUNNING until its duration
elapses, then SUCCESS. -/
def pauseTimer : BT :=
  .leaf "Pause" .invalid (fun env => if env.pauseDone then .success else .running)

/-- From `five.py` line 165: the `Celebrate` parallel with policy
SUCCESS_ON_ONE. -/
def scanCelebrate : BT :=
  .parallel "Celebrate" .invalid true [flashLed "Flash Green", pauseTimer]

/-- From `five.py` line 145: the `Scan` sequence. -/
def scanSeq : BT :=
  .sequence "Scan" .invalid 0 [isScanRequested, scanPreempt, scanCelebrate]

/-- From `five.py` line 168: the `Idle` leaf, a behaviour that returns RUNNING
on every tick. -/
def idle : BT :=
  .leaf "Idle" .invalid (fun _ => .running)

/-- From `five.py` line 134 with children added at line 173: the `Priorities`
selector, whose children are the battery check, the scan branch and the idle
leaf, in that priority order. -/
def priorities : BT :=
  .selector "Priorities" .invalid [batteryCheck, scanSeq, idle]

/-- From `five.py` `create_root` (lines 121-179): the full tutorial tree.  The
root parallel uses the library's default success-on-all policy. -/
def createRoot : BT :=
  .parallel "Tutorial" .invalid false [topics2bb, priorities]

/-- What the process does after `create_root`: either it exits with a code
before any tick, or it enters the periodic tick loop with the given period in
milliseconds. -/
inductive MainOutcome where
  | exited (code : Nat)
  | tickLoop (periodMs : Nat)
deriving DecidableEq, Repr

/-- From `five.py` `main` (lines 190-201): if `behaviour_tree.setup(timeout=15)`
fails the process logs an error and exits with status 1; otherwise it enters
`tick_tock(500)`. -/
def mainRun (setupOk : Bool) : MainOutcome :=
  if setupOk then .tickLoop 500 else .exited 1

mutual
/-- Whether every node of a subtree has status INVALID, as a freshly
constructed tree must (spec section 3: INVALID "is the only legal initial
value"). -/
def allInvalid : BT → Bool
  | .leaf _ st _ => st = .invalid
  | .selector _ st cs => st = .invalid && allInvalidList cs
  | .sequence _ st _ cs => st = .invalid && allInvalidList cs
  | .parallel _ st _ cs => st = .invalid && allInvalidList cs
  | .successIsFailure _ st c => st = .invalid && allInvalid c
  | .successIsRunning _ st c => st = .invalid && allInvalid c

/-- `allInvalid` over a list of sibling subtrees. -/
def allInvalidList : List BT → Bool
  | [] => true
  | c :: rest => allInvalid c && allInvalidList rest
end

/-- The static shape of a tree: everything except the mutable per-node state
(statuses and sequence indices), i.e. names, step functions, policies and the
child structure.  Ticking changes a tree's state but never its shape. -/
inductive Shape where
  | leaf (name : String) (step : Env → TickStatus)
  | selector (name : String) (children : List Shape)
  | sequence (name : String) (children : List Shape)
  | parallel (name : String) (successOnOne : Bool) (children : List Shape)
  | successIsFailure (name : String) (child : Shape)
  | successIsRunning (name : String) (child : Shape)

mutual
/-- The shape of a tree: its statuses and sequence indices erased. -/
def shapeOf : BT → Shape
  | .leaf n _ f => .leaf n f
  | .selector n _ cs => .selector n (shapeOfList cs)
  | .sequence n _ _ cs => .sequence n (shapeOfList cs)
  | .parallel n _ one cs => .parallel n one (shapeOfList cs)
  | .successIsFailure n _ c => .successIsFailure n (shapeOf c)
  | .successIsRunning n _ c => .successIsRunning n (shapeOf c)

/-- `shapeOf` over a list of sibling subtrees. -/
def shapeOfList : List BT → List Shape
  | [] => []
  | c :: rest => shapeOf c :: shapeOfList rest
end

/-- A concrete environment used to exercise the model: the scan-button event
is on the blackboard, the rotate goal is active, the pause timer has not yet
elapsed. -/
def envW : Env :=
  ⟨[("event_scan_button", Val.bool true)], GoalState.active, false⟩

/-- A leaf whose update always fails (e.g. a condition on an absent key). -/
def leafFail : BT := .leaf "always-fails" .invalid (fun _ => .failure)

/-- A leaf whose update always succeeds. -/
def leafSucc : BT := .leaf "always-succeeds" .invalid (fun _ => .success)

/-- A leaf whose update always keeps running. -/
def leafRun : BT := .leaf "always-runs" .invalid (fun _ => .running)

/-- A leaf that was left RUNNING by the previous tick. -/
def leafPrevRunning : BT := .leaf "prev-running" .running (fun _ => .running)

theorem TickStatus.toStatus_ne_invalid (s : TickStatus) : s.toStatus ≠ Status.invalid := by
  cases s <;> simp [TickStatus.toStatus]

theorem parallelStatusOne_ne_invalid (ss : List Status) :
    parallelStatusOne ss ≠ Status.invalid := by
  unfold parallelStatusOne
  split
  · simp
  · split <;> simp

theorem parallelStatusAll_ne_invalid (ss : List Status) :
    parallelStatusAll ss ≠ Status.invalid := by
  unfold parallelStatusAll
  split
  · simp
  · split <;> simp

theorem tick_status_ne_invalid (env : Env) : ∀ t : BT, (tick env t).status ≠ Status.invalid := by
  refine tick.induct env
    (fun t => (tick env t).status ≠ Status.invalid)
    (fun _ => True)
    (fun skip pos l => (seqGo env skip pos l).status ≠ Status.invalid)
    (fun l => (selGo env l).status ≠ Status.invalid)
    ?_ ?_ ?_ ?_ ?_ ?_ ?_ ?_ ?_ ?_ ?_ ?_ ?_ ?_ ?_ ?_ ?_
  · intro n st f
    simp [tick, TickStatus.toStatus_ne_invalid]
  · intro n st cs ih
    simpa [tick] using ih
  · intro n st idx cs ih
    simpa [tick] using ih
  · intro n st one cs r s _ _
    cases one <;> simp only [tick] <;> split <;> split <;>
      simp [parallelStatusOne_ne_invalid, parallelStatusAll_ne_invalid]
  · intro n st one cs r s _ _
    cases one <;> simp only [tick] <;> split <;> split <;>
      simp [parallelStatusOne_ne_invalid, parallelStatusAll_ne_invalid]
  · intro n st c ih
    simp [tick]
    split <;> simp_all
  · intro n st c ih
    simp [tick]
    split <;> simp_all
  · trivial
  · intro c rest _ _
    trivial
  · intro skip pos
    simp [seqGo]
  · intro pos c rest skip ih
    simpa [seqGo] using ih
  · intro pos c rest rc hfail _
    have hf : (tick env c).status = Status.failure := hfail
    simp [seqGo, hf]
  · intro pos c rest rc hrun _
    have hr : (tick env c).status = Status.running := hrun
    simp [seqGo, hr]
  · intro pos c rest rc hnf hnr _ ih
    have h1 : ¬(tick env c).status = Status.failure := hnf
    have h2 : ¬(tick env c).status = Status.running := hnr
    simpa [seqGo, h1, h2] using ih
  · simp [selGo]
  · intro c rest rc hfail _ ih
    have hf : (tick env c).status = Status.failure := hfail
    simpa [selGo, hf] using ih
  · intro c rest rc hnfail ih
    have hf : ¬(tick env c).status = Status.failure := hnfail
    simpa [selGo, hf] using ih

theorem tickStatus_ne_invalid (env : Env) (t : BT) : tickStatus env t ≠ Status.invalid :=
  tick_status_ne_invalid env t

theorem tickStatus_cases (env : Env) (t : BT) :
    tickStatus env t = Status.running ∨ tickStatus env t = Status.success ∨
      tickStatus env t = Status.failure := by
  have h := tickStatus_ne_invalid env t
  cases hs : tickStatus env t <;> simp_all

theorem rootStatus_tickTree (env : Env) (t : BT) :
    rootStatus (tickTree env t) = tickStatus env t := by
  cases t
  case leaf n st f => simp [tick, tickTree, tickStatus, rootStatus]
  case selector n st cs => simp [tick, tickTree, tickStatus, rootStatus]
  case sequence n st idx cs => simp [tick, tickTree, tickStatus, rootStatus]
  case parallel n st one cs =>
    cases one <;> simp only [tickTree, tickStatus, tick] <;> split <;> split <;>
      simp [rootStatus]
  case successIsFailure n st c => simp [tick, tickTree, tickStatus, rootStatus]
  case successIsRunning n st c => simp [tick, tickTree, tickStatus, rootStatus]

theorem rootName_tickTree (env : Env) (t : BT) :
    rootName (tickTree env t) = rootName t := by
  cases t
  case leaf n st f => simp [tick, tickTree, rootName]
  case selector n st cs => simp [tick, tickTree, rootName]
  case sequence n st idx cs => simp [tick, tickTree, rootName]
  case parallel n st one cs =>
    cases one <;> simp only [tickTree, tick] <;> split <;> split <;> simp [rootName]
  case successIsFailure n st c => simp [tick, tickTree, rootName]
  case successIsRunning n st c => simp [tick, tickTree, rootName]

theorem invalidate_log_of_running (t : BT) (h : rootStatus t = Status.running) :
    rootName t ∈ (invalidate t).2 := by
  cases t <;> simp_all [invalidate, rootStatus, rootName]

theorem invalidateList_fst (l : List BT) :
    (invalidateList l).1 = l.map (fun c => (invalidate c).1) := by
  induction l with
  | nil => simp [invalidateList]
  | cons c rest ih => simp [invalidateList, ih]

theorem invalidateList_mem_log (l : List BT) (d : BT) (hd : d ∈ l)
    (hr : rootStatus d = Status.running) : rootName d ∈ (invalidateList l).2 := by
  induction l with
  | nil => simp at hd
  | cons c rest ih =>
    rcases List.mem_cons.mp hd with rfl | hd2
    · exact List.mem_append_left _ (invalidate_log_of_running d hr)
    · exact List.mem_append_right _ (ih hd2)

theorem selGo_status_spec (env : Env) (l : List BT) :
    (selGo env l).status = specSelector (l.map (tickStatus env)) := by
  induction l with
  | nil => simp [selGo, specSelector]
  | cons c rest ih =>
    by_cases h : (tick env c).status = Status.failure
    · have h2 : tickStatus env c = Status.failure := h
      simp [selGo, h, specSelector, h2, ih]
    · have hne : tickStatus env c ≠ Status.failure := h
      have hsr : (tick env c).status = Status.success ∨ (tick env c).status = Status.running := by
        rcases tickStatus_cases env c with h1 | h1 | h1 <;> simp_all [tickStatus]
      simp [selGo, h, specSelector, hsr, tickStatus]

theorem mem_logs_foldr (env : Env) (x : String) (pre : List BT) (base : List String)
    (hx : x ∈ base) : x ∈ pre.foldr (fun p acc => tickLog env p ++ acc) base := by
  induction pre with
  | nil => exact hx
  | cons p ps ih => exact List.mem_append_right _ ih

theorem selGo_pre_fail (env : Env) (pre l : List BT)
    (hp : ∀ p ∈ pre, tickStatus env p = Status.failure) :
    selGo env (pre ++ l) =
      ⟨pre.map (tickTree env) ++ (selGo env l).trees, (selGo env l).status,
        pre.foldr (fun p acc => tickLog env p ++ acc) (selGo env l).terminated⟩ := by
  induction pre with
  | nil => simp
  | cons p ps ih =>
    have hf : (tick env p).status = Status.failure := hp p (by simp)
    have ih2 := ih (fun q hq => hp q (by simp [hq]))
    simp [selGo, hf, ih2, tickTree, tickLog]

theorem selGo_stop (env : Env) (c : BT) (suf : List BT)
    (hc : tickStatus env c ≠ Status.failure) :
    selGo env (c :: suf) =
      ⟨tickTree env c :: (invalidateList suf).1, tickStatus env c,
        tickLog env c ++ (invalidateList suf).2⟩ := by
  have h : ¬(tick env c).status = Status.failure := hc
  simp [selGo, h, tickTree, tickStatus, tickLog]

theorem specSelector_all_fail (ss : List Status) (h : ∀ s ∈ ss, s = Status.failure) :
    specSelector ss = Status.failure := by
  induction ss with
  | nil => simp [specSelector]
  | cons s rest ih =>
    have hs : s = Status.failure := h s (by simp)
    simp [specSelector, hs, ih (fun q hq => h q (by simp [hq]))]

theorem seqGo_skip_split (env : Env) (l : List BT) : ∀ skip pos,
    seqGo env skip pos l =
      ⟨l.take skip ++ (seqGo env 0 (pos + skip) (l.drop skip)).trees,
        (seqGo env 0 (pos + skip) (l.drop skip)).status,
        (seqGo env 0 (pos + skip) (l.drop skip)).terminated,
        (seqGo env 0 (pos + skip) (l.drop skip)).nextIndex⟩ := by
  induction l with
  | nil =>
    intro skip pos
    cases skip <;> simp [seqGo]
  | cons c rest ih =>
    intro skip pos
    cases skip with
    | zero => simp
    | succ skip2 =>
      have harith : pos + 1 + skip2 = pos + (skip2 + 1) := by omega
      have ih2 := ih skip2 (pos + 1)
      rw [harith] at ih2
      simp [seqGo, ih2]

theorem seqGo0_pre_success (env : Env) (pre l : List BT) : ∀ pos,
    (∀ p ∈ pre, tickStatus env p = Status.success) →
    seqGo env 0 pos (pre ++ l) =
      ⟨pre.map (tickTree env) ++ (seqGo env 0 (pos + pre.length) l).trees,
        (seqGo env 0 (pos + pre.length) l).status,
        pre.foldr (fun p acc => tickLog env p ++ acc)
          (seqGo env 0 (pos + pre.length) l).terminated,
        (seqGo env 0 (pos + pre.length) l).nextIndex⟩ := by
  induction pre with
  | nil =>
    intro pos _
    simp
  | cons p ps ih =>
    intro pos hp
    have hs : (tick env p).status = Status.success := hp p (by simp)
    have ih2 := ih (pos + 1) (fun q hq => hp q (by simp [hq]))
    have harith : pos + 1 + ps.length = pos + (ps.length + 1) := by omega
    rw [harith] at ih2
    simp [seqGo, hs, ih2, tickTree, tickLog]

theorem seqGo0_fail_head (env : Env) (c : BT) (suf : List BT) (pos : Nat)
    (hc : tickStatus env c = Status.failure) :
    seqGo env 0 pos (c :: suf) =
      ⟨tickTree env c :: (invalidateList suf).1, Status.failure,
        tickLog env c ++ (invalidateList suf).2, 0⟩ := by
  have h : (tick env c).status = Status.failure := hc
  simp [seqGo, h, tickTree, tickLog]

theorem seqGo0_run_head (env : Env) (c : BT) (suf : List BT) (pos : Nat)
    (hc : tickStatus env c = Status.running) :
    seqGo env 0 pos (c :: suf) =
      ⟨tickTree env c :: suf, Status.running, tickLog env c, pos⟩ := by
  have h : (tick env c).status = Status.running := hc
  simp [seqGo, h, tickTree, tickLog]

theorem seqGo0_all_success (env : Env) (l : List BT) : ∀ pos,
    (∀ c ∈ l, tickStatus env c = Status.success) →
    (seqGo env 0 pos l).status = Status.success := by
  induction l with
  | nil =>
    intro pos _
    simp [seqGo]
  | cons c rest ih =>
    intro pos hc
    have hs : (tick env c).status = Status.success := hc c (by simp)
    simp [seqGo, hs, ih (pos + 1) (fun q hq => hc q (by simp [hq]))]

theorem parGo_statuses (env : Env) (l : List BT) :
    (parGo env l).statuses = l.map (tickStatus env) := by
  induction l with
  | nil => simp [parGo]
  | cons c rest ih => simp [parGo, ih, tickStatus]

theorem parGo_trees (env : Env) (l : List BT) :
    (parGo env l).trees = l.map (tickTree env) := by
  induction l with
  | nil => simp [parGo]
  | cons c rest ih => simp [parGo, ih, tickTree]

theorem invalidateRunningList_fst (l : List BT) :
    (invalidateRunningList l).1 =
      l.map (fun t => if rootStatus t = Status.running then (invalidate t).1 else t) := by
  induction l with
  | nil => simp [invalidateRunningList]
  | cons c rest ih =>
    by_cases h : rootStatus c = Status.running <;>
      simp [invalidateRunningList, h, ih]

theorem invalidateRunningList_mem_log (l : List BT) (d : BT) (hd : d ∈ l)
    (hr : rootStatus d = Status.running) : rootName d ∈ (invalidateRunningList l).2 := by
  induction l with
  | nil => simp at hd
  | cons c rest ih =>
    rcases List.mem_cons.mp hd with rfl | hd2
    · simp [invalidateRunningList, hr]
      exact Or.inl (invalidate_log_of_running d hr)
    · by_cases h : rootStatus c = Status.running
      · simp [invalidateRunningList, h]
        exact Or.inr (ih hd2)
      · simpa [invalidateRunningList, h] using ih hd2

theorem parallelStatusOne_of_success (ss : List Status) (h : Status.success ∈ ss) :
    parallelStatusOne ss = Status.success := by
  unfold parallelStatusOne
  rw [if_pos]
  exact List.any_eq_true.mpr ⟨Status.success, h, by simp⟩

theorem parallelStatusOne_of_all_fail (ss : List Status) (h : ∀ s ∈ ss, s = Status.failure) :
    parallelStatusOne ss = Status.failure := by
  unfold parallelStatusOne
  have hany : ss.any (fun s => s = Status.success) = false := by
    rw [List.any_eq_false]
    intro s hs
    simp only [decide_eq_true_eq]
    intro hs2
    have := h s hs
    simp_all
  have hall : ss.all (fun s => s = Status.failure) = true := by
    rw [List.all_eq_true]
    intro s hs
    simp [h s hs]
  simp [hany, hall]

theorem shapeOf_invalidate : ∀ t : BT, shapeOf (invalidate t).1 = shapeOf t := by
  refine invalidate.induct
    (fun t => shapeOf (invalidate t).1 = shapeOf t)
    (fun l => shapeOfList (invalidateList l).1 = shapeOfList l)
    ?_ ?_ ?_ ?_ ?_ ?_ ?_ ?_
  · intro n st f
    simp [invalidate, shapeOf]
  · intro n st cs ih
    simp [invalidate, shapeOf, ih]
  · intro n st idx cs ih
    simp [invalidate, shapeOf, ih]
  · intro n st one cs ih
    simp [invalidate, shapeOf, ih]
  · intro n st c ih
    simp [invalidate, shapeOf, ih]
  · intro n st c ih
    simp [invalidate, shapeOf, ih]
  · simp [invalidateList, shapeOfList]
  · intro c rest ih1 ih2
    simp [invalidateList, shapeOfList, ih1, ih2]

theorem shapeOfList_invalidateList (l : List BT) :
    shapeOfList (invalidateList l).1 = shapeOfList l := by
  induction l with
  | nil => simp [invalidateList, shapeOfList]
  | cons c rest ih => simp [invalidateList, shapeOfList, shapeOf_invalidate c, ih]

theorem shapeOfList_invalidateRunningList (l : List BT) :
    shapeOfList (invalidateRunningList l).1 = shapeOfList l := by
  induction l with
  | nil => simp [invalidateRunningList, shapeOfList]
  | cons c rest ih =>
    by_cases h : rootStatus c = Status.running <;>
      simp [invalidateRunningList, h, shapeOfList, shapeOf_invalidate c, ih]

theorem shapeOf_tickTree (env : Env) : ∀ t : BT, shapeOf (tickTree env t) = shapeOf t := by
  refine tick.induct env
    (fun t => shapeOf (tick env t).tree = shapeOf t)
    (fun l => shapeOfList (parGo env l).trees = shapeOfList l)
    (fun skip pos l => shapeOfList (seqGo env skip pos l).trees = shapeOfList l)
    (fun l => shapeOfList (selGo env l).trees = shapeOfList l)
    ?_ ?_ ?_ ?_ ?_ ?_ ?_ ?_ ?_ ?_ ?_ ?_ ?_ ?_ ?_ ?_ ?_
  · intro n st f
    simp [tick, shapeOf]
  · intro n st cs ih
    simp [tick, shapeOf, ih]
  · intro n st idx cs ih
    simp [tick, shapeOf, ih]
  · intro n st one cs r s _ ih
    cases one <;> simp only [tick] <;> split <;> split <;>
      simp [shapeOf, ih, shapeOfList_invalidateRunningList]
  · intro n st one cs r s _ ih
    cases one <;> simp only [tick] <;> split <;> split <;>
      simp [shapeOf, ih, shapeOfList_invalidateRunningList]
  · intro n st c ih
    simp [tick, shapeOf, ih]
  · intro n st c ih
    simp [tick, shapeOf, ih]
  · simp [parGo, shapeOfList]
  · intro c rest ih1 ih2
    simp [parGo, shapeOfList, ih1, ih2]
  · intro skip pos
    simp [seqGo, shapeOfList]
  · intro pos c rest skip ih
    simp [seqGo, shapeOfList, ih]
  · intro pos c rest rc hfail ih
    have hf : (tick env c).status = Status.failure := hfail
    simp [seqGo, hf, shapeOfList, ih, shapeOfList_invalidateList]
  · intro pos c rest rc hrun ih
    have hr : (tick env c).status = Status.running := hrun
    simp [seqGo, hr, shapeOfList, ih]
  · intro pos c rest rc hnf hnr ih1 ih2
    have h1 : ¬(tick env c).status = Status.failure := hnf
    have h2 : ¬(tick env c).status = Status.running := hnr
    simp [seqGo, h1, h2, shapeOfList, ih1, ih2]
  · simp [selGo, shapeOfList]
  · intro c rest rc hfail ih1 ih2
    have hf : (tick env c).status = Status.failure := hfail
    simp [selGo, hf, shapeOfList, ih1, ih2]
  · intro c rest rc hnfail ih
    have hf : ¬(tick env c).status = Status.failure := hnfail
    simp [selGo, hf, shapeOfList, ih, shapeOfList_invalidateList]

theorem parallelStatusOne_of_running (ss : List Status) (h1 : Status.success ∉ ss)
    (h2 : ∃ s ∈ ss, s ≠ Status.failure) : parallelStatusOne ss = Status.running := by
  unfold parallelStatusOne
  have hany : ss.any (fun s => s = Status.success) = false := by
    rw [List.any_eq_false]
    intro s hs
    simp only [decide_eq_true_eq]
    intro hs2
    exact h1 (hs2 ▸ hs)
  have hall : ss.all (fun s => s = Status.failure) = false := by
    rcases h2 with ⟨s, hs, hsne⟩
    rw [List.all_eq_false]
    exact ⟨s, hs, by simp [hsne]⟩
  simp [hany, hall]

/-- C1: For every Selector and every tick, children are ticked in fixed
priority order starting from the first child — the stored statuses (`st` and
those inside the children, including a lower-priority child left RUNNING by
the previous tick) are arbitrary and do not change the scan; the first child
to return SUCCESS or RUNNING stops the scan and the Selector returns that
child's status (children before it are ticked, children after it are not
ticked but invalidated), and if every child returns FAILURE the Selector
returns FAILURE. -/
theorem selector_priority_policy (env : Env) (n : String) (st : Status) (cs : List BT) :
    tickStatus env (BT.selector n st cs) = specSelector (cs.map (tickStatus env)) ∧
    (∀ pre c suf, cs = pre ++ c :: suf →
      (∀ p ∈ pre, tickStatus env p = Status.failure) →
      tickStatus env c ≠ Status.failure →
      tickStatus env (BT.selector n st cs) = tickStatus env c ∧
      tickTree env (BT.selector n st cs) =
        BT.selector n (tickStatus env c)
          (pre.map (tickTree env) ++ tickTree env c ::
            suf.map (fun d => (invalidate d).1))) ∧
    ((∀ c ∈ cs, tickStatus env c = Status.failure) →
      tickStatus env (BT.selector n st cs) = Status.failure) := by
  refine ⟨?_, ?_, ?_⟩
  · simp [tickStatus, tick, selGo_status_spec]
  · rintro pre c suf rfl hpre hc
    have h1 := selGo_pre_fail env pre (c :: suf) hpre
    have h2 := selGo_stop env c suf hc
    constructor
    · simp [tickStatus, tick, h1, h2]
    · simp [tickTree, tick, h1, h2, invalidateList_fst]
  · intro hall
    have hs := specSelector_all_fail (cs.map (tickStatus env)) (by
      intro s hs
      rcases List.mem_map.mp hs with ⟨c, hcm, rfl⟩
      exact hall c hcm)
    simp [tickStatus, tick, selGo_status_spec, hs]

/-- Witness for C1: a concrete selector whose first child fails and whose
second child succeeds ahead of a previously-RUNNING third child. -/
theorem selector_priority_policy_witness :
    ([leafFail, leafSucc, leafPrevRunning] =
        [leafFail] ++ leafSucc :: [leafPrevRunning]) ∧
    (∀ p ∈ [leafFail], tickStatus envW p = Status.failure) ∧
    tickStatus envW leafSucc ≠ Status.failure ∧
    (tickStatus envW (BT.selector "sel" Status.invalid [leafFail, leafSucc, leafPrevRunning]) =
        tickStatus envW leafSucc ∧
      tickTree envW (BT.selector "sel" Status.invalid [leafFail, leafSucc, leafPrevRunning]) =
        BT.selector "sel" (tickStatus envW leafSucc)
          ([leafFail].map (tickTree envW) ++ tickTree envW leafSucc ::
            [leafPrevRunning].map (fun d => (invalidate d).1))) :=
  ⟨rfl,
   by simp [leafFail, tickStatus, tick, TickStatus.toStatus],
   by simp [leafSucc, tickStatus, tick, TickStatus.toStatus],
   (selector_priority_policy envW "sel" Status.invalid
       [leafFail, leafSucc, leafPrevRunning]).2.1
     [leafFail] leafSucc [leafPrevRunning] rfl
     (by simp [leafFail, tickStatus, tick, TickStatus.toStatus])
     (by simp [leafSucc, tickStatus, tick, TickStatus.toStatus])⟩

/-- C2: For every Selector, if a child was RUNNING on the previous tick and
the current scan stops at a higher-priority child (so the previously-RUNNING
child is not reached), then that child receives `terminate` — its name is in
the list of nodes terminated during the tick — before the tick completes. -/
theorem selector_preempts_previously_running (env : Env) (n : String) (st : Status)
    (pre : List BT) (c : BT) (suf : List BT) (d : BT)
    (hpre : ∀ p ∈ pre, tickStatus env p = Status.failure)
    (hc : tickStatus env c ≠ Status.failure) (hd : d ∈ suf)
    (hrun : rootStatus d = Status.running) :
    rootName d ∈ tickLog env (BT.selector n st (pre ++ c :: suf)) := by
  have h1 := selGo_pre_fail env pre (c :: suf) hpre
  have h2 := selGo_stop env c suf hc
  have hmem := invalidateList_mem_log suf d hd hrun
  have hlog : tickLog env (BT.selector n st (pre ++ c :: suf)) =
      pre.foldr (fun p acc => tickLog env p ++ acc)
        (tickLog env c ++ (invalidateList suf).2) := by
    simp [tickLog, tick, h1, h2]
  rw [hlog]
  exact mem_logs_foldr env _ pre _ (List.mem_append_right _ hmem)

/-- Witness for C2: the previously-RUNNING third child is terminated when the
scan stops at the succeeding second child. -/
theorem selector_preempts_previously_running_witness :
    (∀ p ∈ [leafFail], tickStatus envW p = Status.failure) ∧
    tickStatus envW leafSucc ≠ Status.failure ∧
    leafPrevRunning ∈ [leafPrevRunning] ∧
    rootStatus leafPrevRunning = Status.running ∧
    rootName leafPrevRunning ∈
      tickLog envW (BT.selector "sel" Status.running ([leafFail] ++ leafSucc :: [leafPrevRunning])) :=
  ⟨by simp [leafFail, tickStatus, tick, TickStatus.toStatus],
   by simp [leafSucc, tickStatus, tick, TickStatus.toStatus],
   by simp,
   by simp [leafPrevRunning, rootStatus],
   selector_preempts_previously_running envW "sel" Status.running
     [leafFail] leafSucc [leafPrevRunning] leafPrevRunning
     (by simp [leafFail, tickStatus, tick, TickStatus.toStatus])
     (by simp [leafSucc, tickStatus, tick, TickStatus.toStatus])
     (by simp)
     (by simp [leafPrevRunning, rootStatus])⟩

/-- C6: For every status-remapping decorator and every tick, the decorator
ticks its single child unconditionally (the resulting child is the child's
ticked subtree, whatever the stored statuses were) and returns the remapped
status: success-is-failure turns a child SUCCESS into FAILURE and passes
every other status through, success-is-running turns a child SUCCESS into
RUNNING and passes every other status through. -/
theorem decorator_status_remap (env : Env) (n : String) (st : Status) (c : BT) :
    tick env (BT.successIsFailure n st c) =
      ⟨BT.successIsFailure n
          (if tickStatus env c = Status.success then Status.failure else tickStatus env c)
          (tickTree env c),
        (if tickStatus env c = Status.success then Status.failure else tickStatus env c),
        tickLog env c⟩ ∧
    tick env (BT.successIsRunning n st c) =
      ⟨BT.successIsRunning n
          (if tickStatus env c = Status.success then Status.running else tickStatus env c)
          (tickTree env c),
        (if tickStatus env c = Status.success then Status.running else tickStatus env c),
        tickLog env c⟩ := by
  constructor <;> simp [tick, tickStatus, tickTree, tickLog]

theorem tick_parallelOne (env : Env) (n : String) (st : Status) (cs : List BT) :
    tick env (BT.parallel n st true cs) =
      (if parallelStatusOne (cs.map (tickStatus env)) = Status.running then
        ⟨BT.parallel n (parallelStatusOne (cs.map (tickStatus env))) true
            (cs.map (tickTree env)),
          parallelStatusOne (cs.map (tickStatus env)), (parGo env cs).terminated⟩
      else
        ⟨BT.parallel n (parallelStatusOne (cs.map (tickStatus env))) true
            (invalidateRunningList (cs.map (tickTree env))).1,
          parallelStatusOne (cs.map (tickStatus env)),
          (parGo env cs).terminated ++
            (invalidateRunningList (cs.map (tickTree env))).2⟩) := by
  simp [tick, parGo_statuses, parGo_trees]

theorem tickStatus_parallelOne (env : Env) (n : String) (st : Status) (cs : List BT) :
    tickStatus env (BT.parallel n st true cs) =
      parallelStatusOne (cs.map (tickStatus env)) := by
  rw [tickStatus, tick_parallelOne]
  split <;> simp

/-- C3: For every Parallel with the success-on-one policy, all children are
ticked every tick (the resulting children are the ticked subtrees of all
children, possibly invalidated afterwards); the Parallel returns SUCCESS on
the same tick that any child returns SUCCESS, returns FAILURE if all children
return FAILURE, and returns RUNNING otherwise; and on reaching a terminal
status every child still RUNNING is terminated that same tick. -/
theorem parallel_success_on_one (env : Env) (n : String) (st : Status) (cs : List BT) :
    ((∃ c ∈ cs, tickStatus env c = Status.success) →
      tickStatus env (BT.parallel n st true cs) = Status.success) ∧
    ((∀ c ∈ cs, tickStatus env c = Status.failure) →
      tickStatus env (BT.parallel n st true cs) = Status.failure) ∧
    (((∀ c ∈ cs, tickStatus env c ≠ Status.success) ∧
        (∃ c ∈ cs, tickStatus env c ≠ Status.failure)) →
      tickStatus env (BT.parallel n st true cs) = Status.running) ∧
    tickTree env (BT.parallel n st true cs) =
      BT.parallel n (tickStatus env (BT.parallel n st true cs)) true
        (if tickStatus env (BT.parallel n st true cs) = Status.running then
          cs.map (tickTree env)
        else
          (cs.map (tickTree env)).map
            (fun t => if rootStatus t = Status.running then (invalidate t).1 else t)) ∧
    ((tickStatus env (BT.parallel n st true cs) = Status.success ∨
        tickStatus env (BT.parallel n st true cs) = Status.failure) →
      ∀ c ∈ cs, tickStatus env c = Status.running →
        rootName c ∈ tickLog env (BT.parallel n st true cs)) := by
  have hT := tickStatus_parallelOne env n st cs
  refine ⟨?_, ?_, ?_, ?_, ?_⟩
  · rintro ⟨c, hcm, hcs⟩
    rw [hT]
    exact parallelStatusOne_of_success _ (List.mem_map.mpr ⟨c, hcm, hcs⟩)
  · intro hall
    rw [hT]
    refine parallelStatusOne_of_all_fail _ ?_
    intro s hs
    rcases List.mem_map.mp hs with ⟨c, hcm, rfl⟩
    exact hall c hcm
  · rintro ⟨hns, c, hcm, hcf⟩
    rw [hT]
    refine parallelStatusOne_of_running _ ?_
      ⟨tickStatus env c, List.mem_map.mpr ⟨c, hcm, rfl⟩, hcf⟩
    intro hmem
    rcases List.mem_map.mp hmem with ⟨c2, hcm2, hc2⟩
    exact hns c2 hcm2 hc2
  · by_cases hr : parallelStatusOne (cs.map (tickStatus env)) = Status.running
    · simp [tickTree, tick_parallelOne, hT, hr]
    · simp [tickTree, tick_parallelOne, hT, hr, invalidateRunningList_fst]
  · intro hterm c hcm hcrun
    have hr : ¬parallelStatusOne (cs.map (tickStatus env)) = Status.running := by
      rw [hT] at hterm
      rcases hterm with h | h <;> rw [h] <;> simp
    have hlog : tickLog env (BT.parallel n st true cs) =
        (parGo env cs).terminated ++
          (invalidateRunningList (cs.map (tickTree env))).2 := by
      simp [tickLog, tick_parallelOne, hr]
    rw [hlog]
    refine List.mem_append_right _ ?_
    have hmem : tickTree env c ∈ cs.map (tickTree env) := List.mem_map.mpr ⟨c, hcm, rfl⟩
    have hrs : rootStatus (tickTree env c) = Status.running := by
      rw [rootStatus_tickTree]
      exact hcrun
    have hf := invalidateRunningList_mem_log (cs.map (tickTree env)) (tickTree env c) hmem hrs
    rwa [rootName_tickTree] at hf

/-- Witness for C3: a success-on-one parallel over a succeeding child and a
running child returns SUCCESS and terminates the running child. -/
theorem parallel_success_on_one_witness :
    (∃ c ∈ [leafSucc, leafRun], tickStatus envW c = Status.success) ∧
    tickStatus envW (BT.parallel "par" Status.invalid true [leafSucc, leafRun]) =
      Status.success ∧
    leafRun ∈ [leafSucc, leafRun] ∧
    tickStatus envW leafRun = Status.running ∧
    rootName leafRun ∈
      tickLog envW (BT.parallel "par" Status.invalid true [leafSucc, leafRun]) := by
  have hex : ∃ c ∈ [leafSucc, leafRun], tickStatus envW c = Status.success :=
    ⟨leafSucc, by simp, by simp [leafSucc, tickStatus, tick, TickStatus.toStatus]⟩
  have h1 := (parallel_success_on_one envW "par" Status.invalid [leafSucc, leafRun]).1 hex
  have hrun : tickStatus envW leafRun = Status.running := by
    simp [leafRun, tickStatus, tick, TickStatus.toStatus]
  have h5 := (parallel_success_on_one envW "par" Status.invalid [leafSucc, leafRun]).2.2.2.2
    (Or.inl h1) leafRun (by simp) hrun
  exact ⟨hex, h1, by simp, hrun, h5⟩

/-- C4: For every Sequence and every tick (resuming at the stored
current-child index): if the first not-succeeding child returns FAILURE, the
Sequence returns FAILURE, no later child is ticked that cycle (they are
invalidated instead) and previously-RUNNING later children are terminated; if
that child returns RUNNING, the Sequence returns RUNNING and later children
are left untouched; if all children from the index on return SUCCESS, the
Sequence returns SUCCESS. -/
theorem sequence_policy (env : Env) (n : String) (st : Status) (idx : Nat) (cs : List BT) :
    (∀ pre c suf, cs.drop idx = pre ++ c :: suf →
      (∀ p ∈ pre, tickStatus env p = Status.success) →
      ((tickStatus env c = Status.failure →
          tickStatus env (BT.sequence n st idx cs) = Status.failure ∧
          tickTree env (BT.sequence n st idx cs) =
            BT.sequence n Status.failure 0
              (cs.take idx ++ pre.map (tickTree env) ++
                tickTree env c :: suf.map (fun d => (invalidate d).1)) ∧
          (∀ d ∈ suf, rootStatus d = Status.running →
            rootName d ∈ tickLog env (BT.sequence n st idx cs))) ∧
        (tickStatus env c = Status.running →
          tickStatus env (BT.sequence n st idx cs) = Status.running ∧
          tickTree env (BT.sequence n st idx cs) =
            BT.sequence n Status.running (idx + pre.length)
              (cs.take idx ++ pre.map (tickTree env) ++ tickTree env c :: suf)))) ∧
    ((∀ c ∈ cs.drop idx, tickStatus env c = Status.success) →
      tickStatus env (BT.sequence n st idx cs) = Status.success) := by
  have hskip := seqGo_skip_split env cs idx 0
  constructor
  · rintro pre c suf hdrop hpre
    have hps := seqGo0_pre_success env pre (c :: suf) idx hpre
    constructor
    · intro hcf
      have hfh := seqGo0_fail_head env c suf (idx + pre.length) hcf
      refine ⟨?_, ?_, ?_⟩
      · simp [tickStatus, tick, hskip, hdrop, hps, hfh]
      · simp [tickTree, tick, hskip, hdrop, hps, hfh, invalidateList_fst]
      · intro d hd hdr
        have hmem := invalidateList_mem_log suf d hd hdr
        have hlog : tickLog env (BT.sequence n st idx cs) =
            pre.foldr (fun p acc => tickLog env p ++ acc)
              (tickLog env c ++ (invalidateList suf).2) := by
          simp [tickLog, tick, hskip, hdrop, hps, hfh]
        rw [hlog]
        exact mem_logs_foldr env _ pre _ (List.mem_append_right _ hmem)
    · intro hcr
      have hrh := seqGo0_run_head env c suf (idx + pre.length) hcr
      constructor
      · simp [tickStatus, tick, hskip, hdrop, hps, hrh]
      · simp [tickTree, tick, hskip, hdrop, hps, hrh]
  · intro hall
    have hs := seqGo0_all_success env (cs.drop idx) idx hall
    simp [tickStatus, tick, hskip, hs]

/-- Witness for C4: a fresh sequence whose second child fails — the sequence
fails, the previously-RUNNING third child is invalidated, not ticked. -/
theorem sequence_policy_witness :
    ([leafSucc, leafFail, leafPrevRunning].drop 0 =
        [leafSucc] ++ leafFail :: [leafPrevRunning]) ∧
    (∀ p ∈ [leafSucc], tickStatus envW p = Status.success) ∧
    tickStatus envW leafFail = Status.failure ∧
    (tickStatus envW
        (BT.sequence "seq" Status.invalid 0 [leafSucc, leafFail, leafPrevRunning]) =
        Status.failure ∧
      tickTree envW
          (BT.sequence "seq" Status.invalid 0 [leafSucc, leafFail, leafPrevRunning]) =
        BT.sequence "seq" Status.failure 0
          ([leafSucc, leafFail, leafPrevRunning].take 0 ++ [leafSucc].map (tickTree envW) ++
            tickTree envW leafFail :: [leafPrevRunning].map (fun d => (invalidate d).1)) ∧
      (∀ d ∈ [leafPrevRunning], rootStatus d = Status.running →
        rootName d ∈ tickLog envW
          (BT.sequence "seq" Status.invalid 0 [leafSucc, leafFail, leafPrevRunning]))) := by
  have hd : [leafSucc, leafFail, leafPrevRunning].drop 0 =
      [leafSucc] ++ leafFail :: [leafPrevRunning] := rfl
  have hp : ∀ p ∈ [leafSucc], tickStatus envW p = Status.success := by
    simp [leafSucc, tickStatus, tick, TickStatus.toStatus]
  have hf : tickStatus envW leafFail = Status.failure := by
    simp [leafFail, tickStatus, tick, TickStatus.toStatus]
  exact ⟨hd, hp, hf,
    ((sequence_policy envW "seq" Status.invalid 0 [leafSucc, leafFail, leafPrevRunning]).1
      [leafSucc] leafFail [leafPrevRunning] hd hp).1 hf⟩

/-- C5: A node that already returned SUCCESS or FAILURE, ticked again without
an intervening `initialise()` re-activation — i.e. running only its `update()`
step — does not re-trigger its external side effects: the action client's
update polls the goal state but sends no goal, so its goal count is
unchanged (goals are sent only by `acInitialise`). -/
theorem action_client_no_duplicate_goal (gs : GoalState) (ac : ActionClient)
    (_h : ac.status = Status.success ∨ ac.status = Status.failure) :
    (acUpdateStep gs ac).goalsSent = ac.goalsSent ∧
    (acInitialise ac).goalsSent = ac.goalsSent + 1 := by
  constructor
  · simp [acUpdateStep]
  · simp [acInitialise]

/-- Witness for C5: an action client that has already succeeded, polled while
the server reports aborted. -/
theorem action_client_no_duplicate_goal_witness :
    ((⟨Status.success, 1⟩ : ActionClient).status = Status.success ∨
        (⟨Status.success, 1⟩ : ActionClient).status = Status.failure) ∧
    ((acUpdateStep GoalState.aborted ⟨Status.success, 1⟩).goalsSent =
        (⟨Status.success, 1⟩ : ActionClient).goalsSent ∧
      (acInitialise ⟨Status.success, 1⟩).goalsSent =
        (⟨Status.success, 1⟩ : ActionClient).goalsSent + 1) :=
  ⟨Or.inl rfl,
   action_client_no_duplicate_goal GoalState.aborted ⟨Status.success, 1⟩ (Or.inl rfl)⟩

/-- C7: For every CheckBlackboardVariable with key `key` and expected value
`v`, each update returns FAILURE when the key is absent from the blackboard,
SUCCESS when the stored value equals `v`, FAILURE otherwise; and the read
leaves the blackboard unchanged. -/
theorem check_blackboard_variable_update (key : String) (v : Val) (bb : Blackboard) :
    (bb.lookup? key = none → checkUpdate key v bb = (TickStatus.failure, bb)) ∧
    (∀ w, bb.lookup? key = some w →
      checkUpdate key v bb = (if w = v then TickStatus.success else TickStatus.failure, bb)) ∧
    (checkUpdate key v bb).2 = bb := by
  refine ⟨?_, ?_, rfl⟩
  · intro hnone
    simp [checkUpdate, checkBlackboardVariable, hnone]
  · intro w hsome
    simp [checkUpdate, checkBlackboardVariable, hsome]

/-- Witness for C7: key present with a matching boolean value. -/
theorem check_blackboard_variable_update_witness :
    (Blackboard.lookup? [("event_scan_button", Val.bool true)] "event_scan_button" =
        some (Val.bool true)) ∧
    checkUpdate "event_scan_button" (Val.bool true) [("event_scan_button", Val.bool true)] =
      (if Val.bool true = Val.bool true then TickStatus.success else TickStatus.failure,
        [("event_scan_button", Val.bool true)]) :=
  ⟨rfl,
   (check_blackboard_variable_update "event_scan_button" (Val.bool true)
       [("event_scan_button", Val.bool true)]).2.1 (Val.bool true) rfl⟩

/-- C8: For every node, the status recorded after a tick returns — which is
exactly the status the tick returns — is one of RUNNING, SUCCESS or FAILURE,
never INVALID; and INVALID is the status of every node of the freshly built
tutorial tree before its first tick. -/
theorem status_after_tick_invariant :
    (∀ (env : Env) (t : BT),
      tickStatus env t = Status.running ∨ tickStatus env t = Status.success ∨
        tickStatus env t = Status.failure) ∧
    (∀ (env : Env) (t : BT), rootStatus (tickTree env t) = tickStatus env t) ∧
    allInvalid createRoot = true :=
  ⟨tickStatus_cases, rootStatus_tickTree, by decide⟩

/-- C9: If the tree's `setup(timeout)` call fails, the process exits with the
non-zero status 1 before any tick; the 500 ms tick loop is entered exactly
when setup succeeds. -/
theorem main_setup_failure_exits (ok : Bool) :
    (ok = false →
      mainRun ok = MainOutcome.exited 1 ∧ (1 : Nat) ≠ 0 ∧
        ∀ p, mainRun ok ≠ MainOutcome.tickLoop p) ∧
    (ok = true → mainRun ok = MainOutcome.tickLoop 500) := by
  cases ok <;> simp [mainRun]

/-- Witness for C9: the failing-setup run. -/
theorem main_setup_failure_exits_witness :
    (false = false) ∧
    (mainRun false = MainOutcome.exited 1 ∧ (1 : Nat) ≠ 0 ∧
      ∀ p, mainRun false ≠ MainOutcome.tickLoop p) :=
  ⟨rfl, (main_setup_failure_exits false).1 rfl⟩

/-- C10: In the tree built by `create_root`, the last child of the Priorities
selector is the Idle leaf, which returns RUNNING on every tick; therefore on
every tick — i.e. for every tree state `t` sharing the static shape of the
Priorities subtree, a shape that ticking preserves — the Priorities selector
returns RUNNING or SUCCESS and never FAILURE. -/
theorem priorities_selector_never_fails (env : Env) (t : BT)
    (h : shapeOf t = shapeOf priorities) :
    priorities = BT.selector "Priorities" Status.invalid [batteryCheck, scanSeq, idle] ∧
    [batteryCheck, scanSeq, idle].getLast? = some idle ∧
    idle = BT.leaf "Idle" Status.invalid (fun _ => TickStatus.running) ∧
    (∀ (env2 : Env) (st2 : Status),
      tickStatus env2 (BT.leaf "Idle" st2 (fun _ => TickStatus.running)) = Status.running) ∧
    (tickStatus env t = Status.running ∨ tickStatus env t = Status.success) ∧
    tickStatus env t ≠ Status.failure ∧
    shapeOf (tickTree env t) = shapeOf priorities := by
  have hshape : shapeOf priorities =
      Shape.selector "Priorities"
        [shapeOf batteryCheck, shapeOf scanSeq,
          Shape.leaf "Idle" (fun _ => TickStatus.running)] := by
    simp [priorities, shapeOf, shapeOfList, idle]
  have hmain : tickStatus env t = Status.running ∨ tickStatus env t = Status.success := by
    rw [hshape] at h
    cases t with
    | leaf n2 st2 f2 => simp [shapeOf] at h
    | sequence n2 st2 idx2 cs2 => simp [shapeOf] at h
    | parallel n2 st2 one2 cs2 => simp [shapeOf] at h
    | successIsFailure n2 st2 c2 => simp [shapeOf] at h
    | successIsRunning n2 st2 c2 => simp [shapeOf] at h
    | selector n2 st2 cs2 =>
      simp only [shapeOf, Shape.selector.injEq] at h
      obtain ⟨hn2, hcs⟩ := h
      cases cs2 with
      | nil => simp [shapeOfList] at hcs
      | cons c1 cs2b =>
        cases cs2b with
        | nil => simp [shapeOfList] at hcs
        | cons c2 cs3 =>
          cases cs3 with
          | nil => simp [shapeOfList] at hcs
          | cons c3 cs4 =>
            cases cs4 with
            | cons c5 cs5 => simp [shapeOfList] at hcs
            | nil =>
              simp only [shapeOfList, List.cons.injEq, and_true] at hcs
              obtain ⟨h1, h2, h3⟩ := hcs
              have hc3run : tickStatus env c3 = Status.running := by
                cases c3 with
                | leaf n3 st3 f3 =>
                  simp only [shapeOf, Shape.leaf.injEq] at h3
                  obtain ⟨hn3, hf3⟩ := h3
                  simp [tickStatus, tick, hf3, TickStatus.toStatus]
                | selector n3 st3 cs6 => simp [shapeOf] at h3
                | sequence n3 st3 idx3 cs6 => simp [shapeOf] at h3
                | parallel n3 st3 one3 cs6 => simp [shapeOf] at h3
                | successIsFailure n3 st3 c6 => simp [shapeOf] at h3
                | successIsRunning n3 st3 c6 => simp [shapeOf] at h3
              have hsel : tickStatus env (BT.selector n2 st2 [c1, c2, c3]) =
                  specSelector [tickStatus env c1, tickStatus env c2, tickStatus env c3] := by
                simp [tickStatus, tick, selGo_status_spec]
              rw [hsel, hc3run]
              rcases tickStatus_cases env c1 with ha | ha | ha <;>
                rcases tickStatus_cases env c2 with hb | hb | hb <;>
                  simp [specSelector, ha, hb]
  refine ⟨rfl, rfl, rfl, ?_, hmain, ?_, ?_⟩
  · intro env2 st2
    simp [tickStatus, tick, TickStatus.toStatus]
  · rcases hmain with hm | hm <;> rw [hm] <;> simp
  · rw [shapeOf_tickTree env t, h]

/-- Witness for C10: the freshly built Priorities subtree itself. -/
theorem priorities_selector_never_fails_witness :
    (shapeOf priorities = shapeOf priorities) ∧
    ((tickStatus envW priorities = Status.running ∨
        tickStatus envW priorities = Status.success) ∧
      tickStatus envW priorities ≠ Status.failure ∧
      shapeOf (tickTree envW priorities) = shapeOf priorities) := by
  have h := priorities_selector_never_fails envW priorities rfl
  exact ⟨rfl, h.2.2.2.2.1, h.2.2.2.2.2.1, h.2.2.2.2.2.2⟩
